import Mathlib

/-!
Shallow embedding of `src/coldpooling/cp_detection_timeseries.py`.

Modelling conventions:
* A data sample is `Option ℚ`: `none` stands for the NaN missing-value
  sentinel, `some x` for a finite value.  Every numpy/pandas comparison
  against NaN is false, which is exactly how `Option` matching below behaves.
* numpy basic slicing `a[i:j]` (step 1) is `pySlice`, including Python's
  negative-index wrap-around and clamping.
* Python `int(x)` is `pyTrunc` (truncation toward zero).
* Exceptions raised by the Python code (IndexError from `[0][0]` on an empty
  `np.where` result, ZeroDivisionError from `int(d_time / tres)` when the
  grid step is a whole number of days so `.seconds == 0`, AttributeError
  from reading attributes that the constructor never set) are modelled as
  `Except.error ()`.
* The pandas `DatetimeIndex` itself is not re-implemented; the constructor
  only consumes four facts about it (`isinstance` check, whether
  `inferred_freq` is `None`, the resolution `(dt[1]-dt[0]).seconds / 60`,
  and its length), which form the `GridInfo` structure.
-/

namespace Coldpooling

/-- A sample: `none` is the NaN sentinel, `some x` a finite value. -/
abbrev Val := Option ℚ

/-- Normalize a Python slice endpoint for a sequence of length `n`
(step-1 slice semantics: negative indices wrap, everything clamps). -/
def pyBound (n : ℕ) (i : ℤ) : ℕ :=
  (if i < 0 then max ((n : ℤ) + i) 0 else min i (n : ℤ)).toNat

/-- Python/numpy basic slice `l[a:b]` with step 1. -/
def pySlice (l : List α) (a b : ℤ) : List α :=
  (l.take (pyBound l.length b)).drop (pyBound l.length a)

/-- Python `int()` applied to a rational: truncation toward zero. -/
def pyTrunc (q : ℚ) : ℤ :=
  if 0 ≤ q then ⌊q⌋ else -⌊-q⌋

/-- `np.sum(np.isfinite(l))`: number of finite samples. -/
def countFinite (l : List Val) : ℕ :=
  (l.filter Option.isSome).length

/-- Float addition: NaN-propagating. -/
def optAdd : Val → Val → Val
  | some a, some b => some (a + b)
  | _, _ => none

/-- `np.sum` over a float array: NaN-propagating sum, empty sum is `0`. -/
def nanSum : List Val → Val
  | [] => some 0
  | v :: l => optAdd v (nanSum l)

/-- Index of the first element satisfying `p`
(`np.where(...)[0][0]` returns this when it exists). -/
def firstIdx (p : α → Bool) : List α → Option ℕ
  | [] => none
  | a :: l => if p a then some 0 else (firstIdx p l).map (· + 1)

/-- `_check_data_avail` (boolean part): availability ratio of `indata`
is at least `threshold`.  With `indata` empty the numpy ratio is NaN and the
comparison is false. -/
def check_data_avail (indata : List Val) (threshold : ℚ) : Bool :=
  if indata.length = 0 then false
  else decide (threshold ≤ (countFinite indata : ℚ) / (indata.length : ℚ))

/-- `np.where((ttdata[ntt:] - ttdata[:-ntt]) <= d_tt)[0]`: the ascending
list of raw candidate indices (NaN on either side compares false). -/
def candidates (ttdata : List Val) (ntt : ℕ) (d_tt : ℚ) : List ℕ :=
  (List.range (ttdata.length - ntt)).filter fun t =>
    match ttdata[t + ntt]?, ttdata[t]? with
    | some (some a), some (some b) => decide (a - b ≤ d_tt)
    | _, _ => false

/-- Passage refinement for candidate `t` (lines 128-132 of the source):
`tt_p = ttdata[t] + d_tt_p`;
`icp = np.where(ttdata[t:t+ntt+1] <= tt_p)[0][0] + t - 1`.
`none` stands for the IndexError raised when no window sample qualifies
(this includes the case `ttdata[t]` is NaN). -/
def refine (ttdata : List Val) (t : ℕ) (ntt : ℤ) (d_tt_p : ℚ) : Option ℤ :=
  match ttdata[t]? with
  | some (some b) =>
    (firstIdx
        (fun v => match v with
          | some x => decide (x ≤ b + d_tt_p)
          | none => false)
        (pySlice ttdata (t : ℤ) ((t : ℤ) + ntt + 1))).map
      fun k : ℕ => (t : ℤ) + (k : ℤ) - 1
  | _ => none

/-- `_index_cp`: slice bounds of the pre/post/all period of an event at
`index_cp0`.  The fall-through for an unknown period name is Python's
implicit `None`. -/
def index_cp (npre npost index_cp0 : ℤ) (period : String) : Option (ℤ × ℤ) :=
  let ipre := index_cp0 - npre
  let ipost := index_cp0 + npost + 1
  if period = "pre" then some (ipre, index_cp0 + 1)
  else if period = "post" then some (index_cp0 + 1, ipost)
  else if period = "all" then some (ipre, ipost)
  else none

/-- The facts about `dtdata` the constructor consumes. -/
structure GridInfo where
  /-- `isinstance(dtdata, pd.DatetimeIndex)` -/
  isDT : Bool
  /-- `dtdata.inferred_freq is not None` -/
  hasFreq : Bool
  /-- `(dtdata[1] - dtdata[0]).seconds / 60` -/
  tres : ℚ
  /-- `dtdata.shape[0]` -/
  n : ℕ
deriving DecidableEq

/-- Constructor keyword arguments. -/
structure CPConfig where
  d_tt : ℚ
  d_time : ℚ
  time_pre : ℚ
  time_post : ℚ
  d_tt_p : ℚ
  data_avail_cp : ℚ
  data_avail_all : ℚ
deriving DecidableEq

/-- Attributes that `__init__` assigns only inside the `if check_all:`
branch (`self.npre`, `self.npost`, `self.data_avail_cp`,
`self.data_avail_all`). -/
structure CPAttrs where
  npre : ℤ
  npost : ℤ
  data_avail_cp : ℚ
  data_avail_all : ℚ
deriving DecidableEq

/-- Engine state after construction.  `attrs = none` records that the
attribute block above was never assigned. -/
structure CPState where
  ntime : ℤ
  attrs : Option CPAttrs
  cp_index : List ℤ
deriving DecidableEq

/-- `self.ncp = len(cp_index)`. -/
def number (s : CPState) : ℕ := s.cp_index.length

/-- The sequential rejection cascade (lines 122-154): one step per raw
candidate, carrying `icp_prev` and the accepted indices. -/
def detectLoop (ttdata rrdata : List Val) (ntime ntt npre npost : ℤ)
    (d_tt_p data_avail_cp : ℚ) :
    List ℕ → ℤ → List ℤ → Except Unit (List ℤ)
  | [], _, acc => .ok acc
  | t :: ts, icp_prev, acc =>
    if (t : ℤ) - icp_prev ≤ npost then
      detectLoop ttdata rrdata ntime ntt npre npost d_tt_p data_avail_cp
        ts icp_prev acc
    else
      match refine ttdata t ntt d_tt_p with
      | none => .error ()
      | some icp =>
        match index_cp npre npost icp "post", index_cp npre npost icp "all" with
        | some slc_post, some slc_all =>
          if slc_all.1 < 0 ∨ ntime < slc_all.2 then
            detectLoop ttdata rrdata ntime ntt npre npost d_tt_p data_avail_cp
              ts icp_prev acc
          else if ¬ check_data_avail (pySlice ttdata slc_all.1 slc_all.2) data_avail_cp
              ∨ ¬ check_data_avail (pySlice rrdata slc_all.1 slc_all.2) data_avail_cp then
            detectLoop ttdata rrdata ntime ntt npre npost d_tt_p data_avail_cp
              ts icp_prev acc
          else if nanSum (pySlice rrdata slc_post.1 slc_post.2) = some 0 then
            detectLoop ttdata rrdata ntime ntt npre npost d_tt_p data_avail_cp
              ts icp_prev acc
          else
            detectLoop ttdata rrdata ntime ntt npre npost d_tt_p data_avail_cp
              ts icp (acc ++ [icp])
        | _, _ => .error ()

/-- `self.ntime = dtdata.shape[0] if check_dt else -1`. -/
def ntimeOf (g : GridInfo) : ℤ := if g.isDT then (g.n : ℤ) else -1

/-- `ntt = int(d_time / tres)`. -/
def nttOf (g : GridInfo) (c : CPConfig) : ℤ := pyTrunc (c.d_time / g.tres)

/-- `npre = int(time_pre / tres)`. -/
def npreOf (g : GridInfo) (c : CPConfig) : ℤ := pyTrunc (c.time_pre / g.tres)

/-- `npost = int(time_post / tres)`. -/
def npostOf (g : GridInfo) (c : CPConfig) : ℤ := pyTrunc (c.time_post / g.tres)

/-- `t_ttlim`: empty unless all three sample counts are positive. -/
def candOf (g : GridInfo) (ttdata : List Val) (c : CPConfig) : List ℕ :=
  if 0 < nttOf g c ∧ 0 < npreOf g c ∧ 0 < npostOf g c then
    candidates ttdata (nttOf g c).toNat c.d_tt
  else []

/-- `cp_detection.__init__`: validation, candidate search and rejection
cascade.  `Except.error ()` models the constructor raising. -/
def cp_detection (g : GridInfo) (ttdata rrdata : List Val) (c : CPConfig) :
    Except Unit CPState :=
  if g.isDT ∧ g.hasFreq ∧ (ttdata.length : ℤ) = ntimeOf g ∧
      (rrdata.length : ℤ) = ntimeOf g then
    if g.tres = 0 then .error ()
    else
      (detectLoop ttdata rrdata (ntimeOf g) (nttOf g c) (npreOf g c) (npostOf g c)
          c.d_tt_p c.data_avail_cp (candOf g ttdata c) (-99999) []).map
        fun l =>
          ⟨ntimeOf g,
           some ⟨npreOf g c, npostOf g c, c.data_avail_cp, c.data_avail_all⟩, l⟩
  else .ok ⟨ntimeOf g, none, []⟩

/-- `var_time`: passage-aligned table of per-event windows, one column
(list) per accepted event.  A failed length check returns the empty frame;
reading the never-assigned attributes raises (`Except.error`). -/
def var_time (s : CPState) (indata : List Val) : Except Unit (List (List Val)) :=
  if (indata.length : ℤ) ≠ s.ntime then .ok []
  else
    match s.attrs with
    | none => .error ()
    | some a =>
      .ok (s.cp_index.map fun icp =>
        match index_cp a.npre a.npost icp "all" with
        | some slc =>
          if check_data_avail (pySlice indata slc.1 slc.2) a.data_avail_cp then
            pySlice indata slc.1 slc.2
          else
            List.replicate (a.npre + a.npost + 1).toNat none
        | none => [])

/-- `funcavail` of `_calc_val`. -/
def funcavail : List String :=
  ["median", "mean", "max", "min", "sum", "first", "last"]

/-- The finite samples of a column. -/
def finiteVals (col : List Val) : List ℚ := col.filterMap id

/-- Insertion into a sorted list (used for the median). -/
def insertSorted (x : ℚ) : List ℚ → List ℚ
  | [] => [x]
  | y :: l => if x ≤ y then x :: y :: l else y :: insertSorted x l

/-- Insertion sort. -/
def sortQ (l : List ℚ) : List ℚ := l.foldr insertSorted []

/-- pandas `median()` on one column: skips NaN, empty gives NaN. -/
def medianQ (col : List Val) : Val :=
  let xs := sortQ (finiteVals col)
  let n := xs.length
  if n = 0 then none
  else if n % 2 = 1 then xs[n / 2]?
  else
    match xs[n / 2 - 1]?, xs[n / 2]? with
    | some a, some b => some ((a + b) / 2)
    | _, _ => none

/-- pandas `mean()` on one column: skips NaN, empty gives NaN. -/
def meanQ (col : List Val) : Val :=
  let xs := finiteVals col
  if xs.length = 0 then none else some (xs.sum / (xs.length : ℚ))

/-- pandas `max()` on one column: skips NaN, empty gives NaN. -/
def maxQ (col : List Val) : Val :=
  (finiteVals col).foldr (fun x m => match m with
    | none => some x
    | some y => some (max x y)) none

/-- pandas `min()` on one column: skips NaN, empty gives NaN. -/
def minQ (col : List Val) : Val :=
  (finiteVals col).foldr (fun x m => match m with
    | none => some x
    | some y => some (min x y)) none

/-- pandas `sum()` on one column: skips NaN, empty or all-NaN gives `0`. -/
def sumQ (col : List Val) : Val :=
  some (finiteVals col).sum

/-- `_calc_val` on one column.  `first`/`last` are `iloc[0]`/`iloc[-1]`;
in every reachable call the row range is non-empty, so `head?`/`getLast?`
agree with them. -/
def calc_val_col (col : List Val) (funcstr : String) : Val :=
  if funcstr = "median" then medianQ col
  else if funcstr = "mean" then meanQ col
  else if funcstr = "max" then maxQ col
  else if funcstr = "min" then minQ col
  else if funcstr = "sum" then sumQ col
  else if funcstr = "first" then col.headD none
  else col.getLastD none

/-- `_calc_val`: unknown function names give the empty frame, otherwise the
reduction is applied column-wise. -/
def calc_val (cols : List (List Val)) (funcstr : String) : List Val :=
  if funcstr ∈ funcavail then cols.map (fun col => calc_val_col col funcstr)
  else []

/-- `_pre_val`: `eventdata.loc[: slc_pre.stop - 1]` keeps the rows whose
offset label (running from `-npre`) is at most `slc_pre.stop - 1`, then
reduces.  Reading `self.npre` on a state without attributes raises. -/
def pre_val (s : CPState) (cols : List (List Val)) (funcstr : String) :
    Except Unit (List Val) :=
  if cols.isEmpty then .ok []
  else
    match s.attrs with
    | none => .error ()
    | some a =>
      match index_cp a.npre a.npost 0 "pre" with
      | some slc =>
        .ok (calc_val (cols.map fun col => col.take (slc.2 - 1 + a.npre + 1).toNat)
          funcstr)
      | none => .error ()

/-- `_post_val`: `eventdata.loc[slc_post.start :]` keeps the rows whose
offset label is at least `slc_post.start`, then reduces. -/
def post_val (s : CPState) (cols : List (List Val)) (funcstr : String) :
    Except Unit (List Val) :=
  if cols.isEmpty then .ok []
  else
    match s.attrs with
    | none => .error ()
    | some a =>
      match index_cp a.npre a.npost 0 "post" with
      | some slc =>
        .ok (calc_val (cols.map fun col => col.drop (slc.1 + a.npre).toNat) funcstr)
      | none => .error ()

/-- `_all_val`: reduce the whole window. -/
def all_val (cols : List (List Val)) (funcstr : String) : Except Unit (List Val) :=
  if cols.isEmpty then .ok [] else .ok (calc_val cols funcstr)

/-- Recognized period names of `var_val`. -/
def periodsAvail : List String := ["pre", "post", "all"]

/-- `var_val`: dispatch on the period name; unknown names give the empty
frame without touching `var_time`. -/
def var_val (s : CPState) (indata : List Val) (period funcstr : String) :
    Except Unit (List Val) :=
  if period ∉ periodsAvail then .ok []
  else if period = "pre" then
    (var_time s indata).bind fun cols => pre_val s cols funcstr
  else if period = "post" then
    (var_time s indata).bind fun cols => post_val s cols funcstr
  else
    (var_time s indata).bind fun cols => all_val cols funcstr

/-- NaN-propagating subtraction of two samples. -/
def optSub : Val → Val → Val
  | some a, some b => some (a - b)
  | _, _ => none

/-- `var_pert`: `post_val - pre_val`, with `var_time` evaluated for each of
the two reductions exactly as in the source. -/
def var_pert (s : CPState) (indata : List Val) (prefunc postfunc : String) :
    Except Unit (List Val) :=
  (var_time s indata).bind fun c1 =>
    (pre_val s c1 prefunc).bind fun prev =>
      (var_time s indata).bind fun c2 =>
        (post_val s c2 postfunc).map fun postv =>
          List.zipWith optSub postv prev

/-!  Concrete inputs used by the witnesses and counterexamples below.
A one-minute grid of six samples; the configured drop of 2 K within
2 min, refinement threshold 1 K, pre-window 1 min and post-window 2 min. -/

/-- A valid one-minute grid of length 6. -/
def gW : GridInfo := ⟨true, true, 1, 6⟩

/-- Configuration: drop 2 K within 2 min, windows 1 min / 2 min,
passage threshold 1 K, full per-event availability. -/
def cfgW : CPConfig := ⟨-2, 2, 1, 2, -1, 1, 9/10⟩

/-- Temperature with a single 2 K drop between samples 0 and 2. -/
def ttW : List Val := [some 10, some 10, some 8, some 8, some 8, some 8]

/-- Rainfall with a single wet sample inside the post-window. -/
def rrW : List Val := [some 0, some 0, some 1, some 0, some 0, some 0]

/-- The attributes assigned on the inputs above: `npre = 1`, `npost = 2`. -/
def aW : CPAttrs := ⟨1, 2, 1, 9/10⟩

/-- The state the detector reaches on the inputs above: one event at
index 1. -/
def sW : CPState := ⟨6, some aW, [1]⟩

/-- Rainfall whose only nonzero post-window sample is negative. -/
def rrNeg : List Val := [some 0, some 0, some (-1), some 0, some 0, some 0]

/-- A grid that is a datetime index but has no inferable frequency. -/
def gNF : GridInfo := ⟨true, false, 1, 2⟩

/-- A length-2 series matching `gNF`. -/
def ttNF : List Val := [some 0, some 0]

/-- The state constructed from `gNF`: attributes never assigned. -/
def sNF : CPState := ⟨2, none, []⟩

/-!  Basic lemmas about the slicing and searching primitives. -/

theorem pyBound_le (n : ℕ) (i : ℤ) : pyBound n i ≤ n := by
  unfold pyBound
  split <;> omega

theorem pyBound_eq_toNat (n : ℕ) (i : ℤ) (h0 : 0 ≤ i) (h : i ≤ (n : ℤ)) :
    pyBound n i = i.toNat := by
  unfold pyBound
  split <;> omega

theorem pySlice_length (l : List α) (a b : ℤ) :
    (pySlice l a b).length = pyBound l.length b - pyBound l.length a := by
  unfold pySlice
  rw [List.length_drop, List.length_take]
  have := pyBound_le l.length b
  omega

theorem pySlice_getElem (l : List α) (a b : ℤ) (k : ℕ)
    (hk : k < (pySlice l a b).length) :
    (pySlice l a b)[k]? = l[pyBound l.length a + k]? := by
  have hlen := pySlice_length l a b
  unfold pySlice at hk ⊢
  rw [List.getElem?_drop, List.getElem?_take_of_lt]
  rw [List.length_drop, List.length_take] at hk
  omega

theorem firstIdx_eq_some (p : α → Bool) (l : List α) (k : ℕ)
    (h : firstIdx p l = some k) :
    k < l.length ∧ (∃ a, l[k]? = some a ∧ p a = true) ∧
      ∀ j, j < k → ∀ a, l[j]? = some a → p a = false := by
  induction l generalizing k with
  | nil => simp [firstIdx] at h
  | cons x l ih =>
    by_cases hp : p x
    · simp [firstIdx, hp] at h
      subst h
      exact ⟨by simp, ⟨x, by simp, hp⟩, fun j hj => by omega⟩
    · simp [firstIdx, hp] at h
      obtain ⟨k0, hk0, rfl⟩ := h
      obtain ⟨h1, ⟨a, ha, hpa⟩, h3⟩ := ih k0 hk0
      refine ⟨by simpa using h1, ⟨a, by simpa using ha, hpa⟩, ?_⟩
      intro j hj b hb
      cases j with
      | zero =>
        simp at hb
        subst hb
        exact Bool.not_eq_true _ ▸ by simpa using hp
      | succ j0 =>
        simp at hb
        exact h3 j0 (by omega) b hb

theorem firstIdx_eq_none (p : α → Bool) (l : List α)
    (h : firstIdx p l = none) : ∀ a ∈ l, p a = false := by
  induction l with
  | nil => simp
  | cons x l ih =>
    by_cases hp : p x
    · simp [firstIdx, hp] at h
    · simp [firstIdx, hp] at h
      intro a ha
      rcases List.mem_cons.1 ha with rfl | ha
      · simpa using hp
      · exact ih h a ha

theorem nanSum_of_nonneg (l : List Val)
    (h : ∀ v ∈ l, ∃ x, v = some x ∧ 0 ≤ x) :
    ∃ q, nanSum l = some q ∧ 0 ≤ q := by
  induction l with
  | nil => exact ⟨0, rfl, le_refl 0⟩
  | cons v l ih =>
    obtain ⟨x, rfl, hx⟩ := h v (by simp)
    obtain ⟨q, hq, hq0⟩ := ih fun w hw => h w (by simp [hw])
    exact ⟨x + q, by simp [nanSum, optAdd, hq], by positivity⟩

theorem mem_candidates {ttdata : List Val} {ntt : ℕ} {d_tt : ℚ} {t : ℕ}
    (h : t ∈ candidates ttdata ntt d_tt) :
    t + ntt < ttdata.length ∧
      ∃ a b, ttdata[t + ntt]? = some (some a) ∧ ttdata[t]? = some (some b) ∧
        a - b ≤ d_tt := by
  unfold candidates at h
  rw [List.mem_filter, List.mem_range] at h
  obtain ⟨h1, h2⟩ := h
  refine ⟨by omega, ?_⟩
  cases hx : ttdata[t + ntt]? with
  | none => rw [hx] at h2; simp at h2
  | some vx =>
    cases vx with
    | none => rw [hx] at h2; simp at h2
    | some a =>
      cases hy : ttdata[t]? with
      | none => rw [hx, hy] at h2; simp at h2
      | some vy =>
        cases vy with
        | none => rw [hx, hy] at h2; simp at h2
        | some b =>
          rw [hx, hy] at h2
          simp at h2
          exact ⟨a, b, rfl, rfl, by linarith⟩

theorem index_cp_pre (npre npost i : ℤ) :
    index_cp npre npost i "pre" = some (i - npre, i + 1) := rfl

theorem index_cp_post (npre npost i : ℤ) :
    index_cp npre npost i "post" = some (i + 1, i + npost + 1) := rfl

theorem index_cp_all (npre npost i : ℤ) :
    index_cp npre npost i "all" = some (i - npre, i + npost + 1) := rfl

/-- What a successful refinement means: there is a first window position
`j` (with `t ≤ j ≤ t + ntt`) whose temperature is at or below
`ttdata[t] + d_tt_p`, and the result is `j - 1`. -/
theorem refine_eq_some {ttdata : List Val} {t : ℕ} {ntt : ℤ} {d_tt_p : ℚ}
    {icp : ℤ} (hntt : 0 ≤ ntt)
    (h : refine ttdata t ntt d_tt_p = some icp) :
    ∃ b j, ttdata[t]? = some (some b) ∧ t ≤ j ∧ (j : ℤ) ≤ (t : ℤ) + ntt ∧
      j < ttdata.length ∧
      (∃ x, ttdata[j]? = some (some x) ∧ x ≤ b + d_tt_p) ∧
      (∀ i, t ≤ i → i < j → ∀ x, ttdata[i]? = some (some x) → ¬ x ≤ b + d_tt_p) ∧
      icp = (j : ℤ) - 1 := by
  unfold refine at h
  cases hb : ttdata[t]? with
  | none => rw [hb] at h; simp at h
  | some vb =>
    cases vb with
    | none => rw [hb] at h; simp at h
    | some b =>
      rw [hb] at h
      obtain ⟨k, hk, hicp⟩ := Option.map_eq_some'.1 h
      have ht : t < ttdata.length := (List.getElem?_eq_some_iff.1 hb).1
      obtain ⟨hklt, ⟨a, ha, hpa⟩, hmin⟩ := firstIdx_eq_some _ _ _ hk
      have pbt : pyBound ttdata.length (t : ℤ) = t := by
        unfold pyBound; split <;> omega
      have pbs1 : pyBound ttdata.length ((t : ℤ) + ntt + 1) ≤ ttdata.length :=
        pyBound_le _ _
      have pbs2 : (pyBound ttdata.length ((t : ℤ) + ntt + 1) : ℤ) ≤ (t : ℤ) + ntt + 1 := by
        unfold pyBound; split <;> omega
      have hwl := pySlice_length ttdata (t : ℤ) ((t : ℤ) + ntt + 1)
      rw [pbt] at hwl
      have hget := pySlice_getElem ttdata (t : ℤ) ((t : ℤ) + ntt + 1) k hklt
      rw [pbt, ha] at hget
      obtain ⟨x, rfl, hx⟩ : ∃ x, a = some x ∧ x ≤ b + d_tt_p := by
        cases a with
        | none => simp at hpa
        | some x => exact ⟨x, rfl, by simpa using hpa⟩
      refine ⟨b, t + k, rfl, by omega, by omega, by omega, ⟨x, hget.symm, hx⟩, ?_, by omega⟩
      intro i hti hik y hy hyle
      have hik2 : i - t < k := by omega
      have hbd : i - t < (pySlice ttdata (t : ℤ) ((t : ℤ) + ntt + 1)).length := by omega
      have hgi := pySlice_getElem ttdata (t : ℤ) ((t : ℤ) + ntt + 1) (i - t) hbd
      rw [pbt] at hgi
      have : t + (i - t) = i := by omega
      rw [this, hy] at hgi
      have := hmin (i - t) hik2 (some y) hgi
      simp [hyle] at this

/-- With a strictly negative passage threshold the refined index never
precedes the raw candidate: the window's first sample can never qualify. -/
theorem refine_ge {ttdata : List Val} {t : ℕ} {ntt : ℤ} {d_tt_p : ℚ}
    {icp : ℤ} (hntt : 0 ≤ ntt) (hp : d_tt_p < 0)
    (h : refine ttdata t ntt d_tt_p = some icp) : (t : ℤ) ≤ icp := by
  obtain ⟨b, j, hb, htj, _, _, ⟨x, hx, hxle⟩, hmin, hicp⟩ := refine_eq_some hntt h
  rcases Nat.eq_or_lt_of_le htj with rfl | hlt
  · rw [hb] at hx
    have hxb : b = x := by simpa using hx
    subst hxb
    linarith
  · omega

/-- The per-element property every accepted index satisfies: it was
produced by refining some raw candidate, its "all" period lies inside the
series bounds, and its post-period rainfall sum is not exactly zero. -/
def acceptedProp (ttdata rrdata : List Val) (ntime ntt npre npost : ℤ)
    (d_tt_p : ℚ) (C : List ℕ) (icp : ℤ) : Prop :=
  (∃ t, t ∈ C ∧ refine ttdata t ntt d_tt_p = some icp) ∧
  0 ≤ icp - npre ∧ icp + npost + 1 ≤ ntime ∧
  nanSum (pySlice rrdata (icp + 1) (icp + npost + 1)) ≠ some 0

theorem detectLoop_mem {ttdata rrdata : List Val} {ntime ntt npre npost : ℤ}
    {d_tt_p q : ℚ} (C : List ℕ) :
    ∀ (cand : List ℕ) (prev : ℤ) (acc out : List ℤ),
    (∀ t ∈ cand, t ∈ C) →
    (∀ x ∈ acc, acceptedProp ttdata rrdata ntime ntt npre npost d_tt_p C x) →
    detectLoop ttdata rrdata ntime ntt npre npost d_tt_p q cand prev acc =
      .ok out →
    ∀ x ∈ out, acceptedProp ttdata rrdata ntime ntt npre npost d_tt_p C x := by
  intro cand
  induction cand with
  | nil =>
    intro prev acc out _ hacc h
    simp only [detectLoop] at h
    cases h
    exact hacc
  | cons t ts ih =>
    intro prev acc out hC hacc h
    have hCts : ∀ u ∈ ts, u ∈ C := fun u hu => hC u (List.mem_cons_of_mem _ hu)
    simp only [detectLoop] at h
    split at h
    · exact ih prev acc out hCts hacc h
    · cases hr : refine ttdata t ntt d_tt_p with
      | none => rw [hr] at h; simp at h
      | some icp =>
        rw [hr] at h
        simp only [index_cp_post, index_cp_all] at h
        split at h
        · exact ih prev acc out hCts hacc h
        · split at h
          · exact ih prev acc out hCts hacc h
          · split at h
            · exact ih prev acc out hCts hacc h
            · rename_i hbound havail hrain
              refine ih icp (acc ++ [icp]) out hCts ?_ h
              intro x hx
              rcases List.mem_append.1 hx with hx | hx
              · exact hacc x hx
              · have hxi : x = icp := by simpa using hx
                subst hxi
                refine ⟨⟨t, hC t (List.mem_cons_self t ts), hr⟩, ?_, ?_, hrain⟩
                · simp only [not_or, not_lt] at hbound
                  omega
                · simp only [not_or, not_lt] at hbound
                  omega

theorem detectLoop_pairwise {ttdata rrdata : List Val}
    {ntime ntt npre npost : ℤ} {d_tt_p q : ℚ}
    (hntt : 0 ≤ ntt) (hnpost : 0 ≤ npost) (hp : d_tt_p < 0) :
    ∀ (cand : List ℕ) (prev : ℤ) (acc out : List ℤ),
    (∀ x ∈ acc, x ≤ prev) →
    List.Pairwise (fun a b => npost < b - a) acc →
    detectLoop ttdata rrdata ntime ntt npre npost d_tt_p q cand prev acc =
      .ok out →
    List.Pairwise (fun a b => npost < b - a) out := by
  intro cand
  induction cand with
  | nil =>
    intro prev acc out _ hpw h
    simp only [detectLoop] at h
    cases h
    exact hpw
  | cons t ts ih =>
    intro prev acc out hle hpw h
    simp only [detectLoop] at h
    split at h
    · exact ih prev acc out hle hpw h
    · rename_i hsep
      cases hr : refine ttdata t ntt d_tt_p with
      | none => rw [hr] at h; simp at h
      | some icp =>
        rw [hr] at h
        simp only [index_cp_post, index_cp_all] at h
        have hti : (t : ℤ) ≤ icp := refine_ge hntt hp hr
        have hgap : ∀ x ∈ acc, npost < icp - x := by
          intro x hx
          have := hle x hx
          omega
        split at h
        · exact ih prev acc out hle hpw h
        · split at h
          · exact ih prev acc out hle hpw h
          · split at h
            · exact ih prev acc out hle hpw h
            · refine ih icp (acc ++ [icp]) out ?_ ?_ h
              · intro x hx
                rcases List.mem_append.1 hx with hx | hx
                · have := hle x hx
                  omega
                · have : x = icp := by simpa using hx
                  omega
              · rw [List.pairwise_append]
                refine ⟨hpw, by simp, ?_⟩
                intro a ha b hb
                have : b = icp := by simpa using hb
                subst this
                exact hgap a ha

/-- Inversion of a successful construction: either some input check failed
(attributes unset, no events), or all checks passed and the event list is
the loop's output. -/
theorem cp_detection_ok_cases {g : GridInfo} {ttdata rrdata : List Val}
    {c : CPConfig} {s : CPState}
    (h : cp_detection g ttdata rrdata c = Except.ok s) :
    (s = ⟨ntimeOf g, none, []⟩ ∧
      ¬ (g.isDT = true ∧ g.hasFreq = true ∧ (ttdata.length : ℤ) = ntimeOf g ∧
          (rrdata.length : ℤ) = ntimeOf g)) ∨
    (g.isDT = true ∧ g.hasFreq = true ∧ (ttdata.length : ℤ) = (g.n : ℤ) ∧
      (rrdata.length : ℤ) = (g.n : ℤ) ∧ g.tres ≠ 0 ∧
      s.ntime = (g.n : ℤ) ∧
      s.attrs = some ⟨npreOf g c, npostOf g c, c.data_avail_cp, c.data_avail_all⟩ ∧
      detectLoop ttdata rrdata (g.n : ℤ) (nttOf g c) (npreOf g c) (npostOf g c)
        c.d_tt_p c.data_avail_cp (candOf g ttdata c) (-99999) [] =
        .ok s.cp_index) := by
  unfold cp_detection at h
  split at h
  · rename_i hck
    obtain ⟨h1, h2, h3, h4⟩ := hck
    have hnt : ntimeOf g = (g.n : ℤ) := by simp [ntimeOf, h1]
    split at h
    · simp at h
    · rename_i htres
      right
      cases hd : detectLoop ttdata rrdata (ntimeOf g) (nttOf g c) (npreOf g c)
          (npostOf g c) c.d_tt_p c.data_avail_cp (candOf g ttdata c) (-99999) [] with
      | error e => rw [hd] at h; simp [Except.map] at h
      | ok l =>
        rw [hd] at h
        simp only [Except.map, Except.ok.injEq] at h
        subst h
        rw [hnt] at hd
        exact ⟨h1, h2, hnt ▸ h3, hnt ▸ h4, htres, hnt, rfl, hd⟩
  · rename_i hck
    left
    simp only [Except.ok.injEq] at h
    exact ⟨h.symm, hck⟩

/-- `detectLoop` on an empty candidate list returns the accumulator. -/
theorem detectLoop_nil {ttdata rrdata : List Val} {ntime ntt npre npost : ℤ}
    {d_tt_p q : ℚ} {prev : ℤ} {acc : List ℤ} :
    detectLoop ttdata rrdata ntime ntt npre npost d_tt_p q [] prev acc =
      .ok acc := rfl

/-- Every accepted event of a successfully constructed engine with
assigned attributes satisfies `acceptedProp`, and the attribute fields are
the converted sample counts. -/
theorem cp_detection_event {g : GridInfo} {ttdata rrdata : List Val}
    {c : CPConfig} {s : CPState} {a : CPAttrs}
    (h : cp_detection g ttdata rrdata c = Except.ok s)
    (ha : s.attrs = some a) {icp : ℤ} (hm : icp ∈ s.cp_index) :
    a.npre = npreOf g c ∧ a.npost = npostOf g c ∧ s.ntime = (g.n : ℤ) ∧
      0 < nttOf g c ∧ 0 < npreOf g c ∧ 0 < npostOf g c ∧
      acceptedProp ttdata rrdata (g.n : ℤ) (nttOf g c) (npreOf g c)
        (npostOf g c) c.d_tt_p (candOf g ttdata c) icp := by
  rcases cp_detection_ok_cases h with ⟨rfl, _⟩ | ⟨_, _, _, _, _, hnt, hattr, hd⟩
  · simp at ha
  · rw [hattr] at ha
    injection ha with ha
    subst ha
    have hpos : 0 < nttOf g c ∧ 0 < npreOf g c ∧ 0 < npostOf g c := by
      by_contra hc
      rw [candOf, if_neg hc, detectLoop_nil] at hd
      injection hd with hd
      rw [← hd] at hm
      simp at hm
    refine ⟨rfl, rfl, hnt, hpos.1, hpos.2.1, hpos.2.2, ?_⟩
    exact detectLoop_mem (candOf g ttdata c) (candOf g ttdata c) (-99999) [] _
      (fun t ht => ht) (by simp) hd icp hm

/-- C1: every index in the frozen event set was produced by refining a raw
candidate `t`: there is a first position `j` of the sub-window
`[t, t + ntt]` whose temperature is at or below `temperature[t]` plus the
passage threshold (no earlier window position qualifies), and the refined
passage index is `j - 1`, one sample before it. -/
theorem c1_passage_refinement {g : GridInfo} {ttdata rrdata : List Val}
    {c : CPConfig} {s : CPState}
    (h : cp_detection g ttdata rrdata c = Except.ok s)
    {icp : ℤ} (hm : icp ∈ s.cp_index) :
    ∃ t j b, t ∈ candidates ttdata (nttOf g c).toNat c.d_tt ∧
      ttdata[t]? = some (some b) ∧
      t ≤ j ∧ (j : ℤ) ≤ (t : ℤ) + nttOf g c ∧
      (∃ x, ttdata[j]? = some (some x) ∧ x ≤ b + c.d_tt_p) ∧
      (∀ i, t ≤ i → i < j → ∀ x, ttdata[i]? = some (some x) →
        ¬ x ≤ b + c.d_tt_p) ∧
      icp = (j : ℤ) - 1 := by
  rcases cp_detection_ok_cases h with ⟨rfl, _⟩ | ⟨_, _, _, _, _, _, _, hd⟩
  · simp at hm
  · obtain ⟨⟨t, htC, hr⟩, _, _, _⟩ :=
      detectLoop_mem (candOf g ttdata c) (candOf g ttdata c) (-99999) [] _
        (fun u hu => hu) (by simp) hd icp hm
    unfold candOf at htC
    split at htC
    · rename_i hpos
      obtain ⟨b, j, hb, htj, hjle, _, hdrop, hmin, hicp⟩ :=
        refine_eq_some (le_of_lt hpos.1) hr
      exact ⟨t, j, b, htC, hb, htj, hjle, hdrop, hmin, hicp⟩
    · simp at htC

/-- C2: under the configuration contract that the passage threshold is
strictly negative, accepted event indices are pairwise separated by more
than the post-window sample count (hence strictly increasing with no
overlapping post-windows). -/
theorem c2_min_separation {g : GridInfo} {ttdata rrdata : List Val}
    {c : CPConfig} {s : CPState} {a : CPAttrs}
    (h : cp_detection g ttdata rrdata c = Except.ok s)
    (ha : s.attrs = some a) (hp : c.d_tt_p < 0) :
    List.Pairwise (fun x y => a.npost < y - x) s.cp_index := by
  rcases cp_detection_ok_cases h with ⟨rfl, _⟩ | ⟨_, _, _, _, _, _, hattr, hd⟩
  · simp at ha
  · rw [hattr] at ha
    injection ha with ha
    subst ha
    unfold candOf at hd
    split at hd
    · rename_i hpos
      exact detectLoop_pairwise (le_of_lt hpos.1) (le_of_lt hpos.2.2) hp
        _ (-99999) [] _ (by simp) (by simp) hd
    · rw [detectLoop_nil] at hd
      injection hd with hd
      rw [← hd]
      simp

/-- C3: every accepted event's "all" period lies within the series bounds:
`icp - npre ≥ 0` and `icp + npost + 1 ≤ N` with `N` the grid length. -/
theorem c3_bounds {g : GridInfo} {ttdata rrdata : List Val}
    {c : CPConfig} {s : CPState} {a : CPAttrs}
    (h : cp_detection g ttdata rrdata c = Except.ok s)
    (ha : s.attrs = some a) {icp : ℤ} (hm : icp ∈ s.cp_index) :
    0 ≤ icp - a.npre ∧ icp + a.npost + 1 ≤ (g.n : ℤ) ∧
      s.ntime = (g.n : ℤ) := by
  obtain ⟨hnpre, hnpost, hnt, _, _, _, _, hlo, hhi, _⟩ := cp_detection_event h ha hm
  exact ⟨hnpre ▸ hlo, hnpost ▸ hhi, hnt⟩

/-- C4 (amended): every accepted event's post-period rainfall sum, under
NaN-propagating summation, differs from exactly zero; when every
post-period rainfall sample is finite and nonnegative the sum is strictly
positive.  (The sum itself can be NaN or negative, so it is not strictly
positive in general.) -/
theorem c4_rainfall_amended {g : GridInfo} {ttdata rrdata : List Val}
    {c : CPConfig} {s : CPState} {a : CPAttrs}
    (h : cp_detection g ttdata rrdata c = Except.ok s)
    (ha : s.attrs = some a) {icp : ℤ} (hm : icp ∈ s.cp_index) :
    nanSum (pySlice rrdata (icp + 1) (icp + a.npost + 1)) ≠ some 0 ∧
      ((∀ v ∈ pySlice rrdata (icp + 1) (icp + a.npost + 1),
          ∃ x, v = some x ∧ 0 ≤ x) →
        ∃ q, nanSum (pySlice rrdata (icp + 1) (icp + a.npost + 1)) = some q ∧
          0 < q) := by
  obtain ⟨_, hnpost, _, _, _, _, _, _, _, hrain⟩ := cp_detection_event h ha hm
  rw [hnpost]
  refine ⟨hrain, ?_⟩
  intro hnn
  obtain ⟨q, hq, hq0⟩ := nanSum_of_nonneg _ hnn
  refine ⟨q, hq, ?_⟩
  rcases lt_or_eq_of_le hq0 with hlt | heq
  · exact hlt
  · exact absurd (heq ▸ hq) hrain

/-- C10: when the drop threshold is at most the passage threshold and the
passage threshold is strictly negative, refinement of a raw candidate
never fails: some window position qualifies (position `ntt` does), the
first such position is at offset at least one, and the refined index lies
in `[t, t + ntt - 1]`. -/
theorem c10_refine_total (ttdata : List Val) (ntt : ℕ) (d_tt d_tt_p : ℚ)
    (h1 : d_tt ≤ d_tt_p) (h2 : d_tt_p < 0) (t : ℕ)
    (ht : t ∈ candidates ttdata ntt d_tt) :
    ∃ icp, refine ttdata t (ntt : ℤ) d_tt_p = some icp ∧
      (t : ℤ) ≤ icp ∧ icp ≤ (t : ℤ) + (ntt : ℤ) - 1 := by
  obtain ⟨hlen, a, b, hA, hB, hab⟩ := mem_candidates ht
  have hwl : (pySlice ttdata (t : ℤ) ((t : ℤ) + (ntt : ℤ) + 1)).length = ntt + 1 := by
    rw [pySlice_length]
    have e1 : pyBound ttdata.length (t : ℤ) = t := by
      unfold pyBound; split <;> omega
    have e2 : pyBound ttdata.length ((t : ℤ) + (ntt : ℤ) + 1) = t + ntt + 1 := by
      unfold pyBound; split <;> omega
    omega
  have hwk : (pySlice ttdata (t : ℤ) ((t : ℤ) + (ntt : ℤ) + 1))[ntt]? =
      some (some a) := by
    have := pySlice_getElem ttdata (t : ℤ) ((t : ℤ) + (ntt : ℤ) + 1) ntt (by omega)
    have e1 : pyBound ttdata.length (t : ℤ) = t := by
      unfold pyBound; split <;> omega
    rw [e1] at this
    rw [this, hA]
  cases hf : firstIdx
      (fun v => match v with
        | some x => decide (x ≤ b + d_tt_p)
        | none => false)
      (pySlice ttdata (t : ℤ) ((t : ℤ) + (ntt : ℤ) + 1)) with
  | none =>
    have hall := firstIdx_eq_none _ _ hf (some a) (List.getElem?_mem hwk)
    simp at hall
    linarith
  | some k =>
    have hr : refine ttdata t (ntt : ℤ) d_tt_p = some ((t : ℤ) + (k : ℤ) - 1) := by
      simp [refine, hB, hf]
    refine ⟨(t : ℤ) + (k : ℤ) - 1, hr, refine_ge (by omega) h2 hr, ?_⟩
    obtain ⟨_, j, _, _, hjle, _, _, _, hicp⟩ := refine_eq_some (by omega) hr
    omega

/-- C5 counterexample: at `i = 5`, `npre = 2`, `npost = 3` the code's
pre-period range is `(3, 6)` — it includes the passage sample `i` — not
the claimed half-open `[i - npre, i) = (3, 5)`. -/
theorem c5_ranges_cex :
    index_cp 2 3 5 "pre" = some (3, 6) ∧
      index_cp 2 3 5 "pre" ≠ some (3, 5) := by
  exact ⟨rfl, by decide⟩

/-- C5 (amended): for every event index and positive `npre`, `npost` the
window indexer returns, as a pure function of its arguments,
pre = `[i - npre, i + 1)` (the passage sample included),
post = `[i + 1, i + npost + 1)` and all = `[i - npre, i + npost + 1)`. -/
theorem c5_ranges_amended (i npre npost : ℤ) (h1 : 0 < npre) (h2 : 0 < npost) :
    index_cp npre npost i "pre" = some (i - npre, i + 1) ∧
      index_cp npre npost i "post" = some (i + 1, i + npost + 1) ∧
      index_cp npre npost i "all" = some (i - npre, i + npost + 1) :=
  ⟨rfl, rfl, rfl⟩

/-- C6: for a grid-length input series, each accepted event's output
column of `var_time` either reproduces the original sub-array
`indata[icp - npre .. icp + npost]` value for value (when the per-event
availability gate passes) or is entirely the missing-value placeholder
(when it fails) — never partially populated. -/
theorem c6_windowed {g : GridInfo} {ttdata rrdata : List Val}
    {c : CPConfig} {s : CPState} {a : CPAttrs}
    (h : cp_detection g ttdata rrdata c = Except.ok s)
    (ha : s.attrs = some a) (indata : List Val)
    (hlen : (indata.length : ℤ) = s.ntime)
    {cols : List (List Val)} (hv : var_time s indata = Except.ok cols)
    {i : ℕ} {icp : ℤ} (hi : s.cp_index[i]? = some icp) :
    ∃ col, cols[i]? = some col ∧
      (check_data_avail (pySlice indata (icp - a.npre) (icp + a.npost + 1))
          a.data_avail_cp = true →
        col.length = (a.npre + a.npost + 1).toNat ∧
        ∀ k : ℕ, k < (a.npre + a.npost + 1).toNat →
          col[k]? = indata[(icp - a.npre).toNat + k]?) ∧
      (check_data_avail (pySlice indata (icp - a.npre) (icp + a.npost + 1))
          a.data_avail_cp = false →
        col = List.replicate (a.npre + a.npost + 1).toNat none) := by
  have hmem : icp ∈ s.cp_index := List.getElem?_mem hi
  obtain ⟨hnpre, hnpost, hnt, _, hppre, hppost, _, hblo, hbhi, _⟩ :=
    cp_detection_event h ha hmem
  rw [← hnpre] at hblo hppre
  rw [← hnpost] at hbhi hppost
  have hL : icp + a.npost + 1 ≤ (indata.length : ℤ) := by
    rw [hlen, hnt]; exact hbhi
  unfold var_time at hv
  rw [if_neg (by omega), ha] at hv
  simp only [Except.ok.injEq] at hv
  subst hv
  have hcol : (s.cp_index.map fun icp0 =>
      match index_cp a.npre a.npost icp0 "all" with
      | some slc =>
        if check_data_avail (pySlice indata slc.1 slc.2) a.data_avail_cp then
          pySlice indata slc.1 slc.2
        else List.replicate (a.npre + a.npost + 1).toNat none
      | none => [])[i]? = some (
      if check_data_avail (pySlice indata (icp - a.npre) (icp + a.npost + 1))
          a.data_avail_cp then
        pySlice indata (icp - a.npre) (icp + a.npost + 1)
      else List.replicate (a.npre + a.npost + 1).toNat none) := by
    rw [List.getElem?_map, hi]
    simp [index_cp_all]
  refine ⟨_, hcol, ?_, ?_⟩
  · intro hav
    rw [if_pos hav]
    have e1 : pyBound indata.length (icp - a.npre) = (icp - a.npre).toNat := by
      unfold pyBound; split <;> omega
    have e2 : pyBound indata.length (icp + a.npost + 1) =
        (icp + a.npost + 1).toNat := by
      unfold pyBound; split <;> omega
    have hlenS := pySlice_length indata (icp - a.npre) (icp + a.npost + 1)
    rw [e1, e2] at hlenS
    constructor
    · omega
    · intro k hk
      have hks : k < (pySlice indata (icp - a.npre) (icp + a.npost + 1)).length := by
        omega
      have := pySlice_getElem indata (icp - a.npre) (icp + a.npost + 1) k hks
      rw [e1] at this
      exact this
  · intro hav
    rw [if_neg (by simp [hav])]

/-- C7: for recognized reduction names, the perturbation query equals the
post-period value minus the pre-period value, each computed independently
by `var_val` from the same series. -/
theorem c7_perturbation (s : CPState) (indata : List Val)
    (prefunc postfunc : String)
    (h1 : prefunc ∈ funcavail) (h2 : postfunc ∈ funcavail) :
    var_pert s indata prefunc postfunc =
      (var_val s indata "post" postfunc).bind fun postv =>
        (var_val s indata "pre" prefunc).map fun prev =>
          List.zipWith optSub postv prev := by
  have hpost : var_val s indata "post" postfunc =
      (var_time s indata).bind fun cols => post_val s cols postfunc := rfl
  have hpre : var_val s indata "pre" prefunc =
      (var_time s indata).bind fun cols => pre_val s cols prefunc := rfl
  rw [hpost, hpre]
  unfold var_pert
  cases hVT : var_time s indata with
  | error e => rfl
  | ok cols =>
    simp only [Except.bind]
    cases hPre : pre_val s cols prefunc with
    | error u =>
      cases hPost : post_val s cols postfunc with
      | error w => cases u; cases w; rfl
      | ok p => rfl
    | ok pr =>
      cases hPost : post_val s cols postfunc with
      | error w => rfl
      | ok po => rfl

/-- C9: an unrecognized reduction-function name makes `_calc_val` return
the empty frame, and an unrecognized period name makes `var_val` return
the empty frame, in both cases without raising. -/
theorem c9_unknown_names :
    (∀ (cols : List (List Val)) (funcstr : String), funcstr ∉ funcavail →
      calc_val cols funcstr = []) ∧
    (∀ (s : CPState) (indata : List Val) (period funcstr : String),
      period ∉ periodsAvail →
      var_val s indata period funcstr = Except.ok []) := by
  constructor
  · intro cols funcstr hf
    unfold calc_val
    rw [if_neg hf]
  · intro s indata period funcstr hp
    unfold var_val
    rw [if_pos hp]

/-- C8 counterexample: on a datetime grid with no inferable frequency the
constructor completes with zero events, but the windowing query on a
grid-length series raises (the availability and window attributes were
never assigned), so not every query operation remains callable. -/
theorem c8_validation_cex :
    cp_detection gNF ttNF ttNF cfgW = Except.ok sNF ∧
      sNF.cp_index = [] ∧ number sNF = 0 ∧
      var_time sNF ttNF = Except.error () :=
  ⟨rfl, rfl, rfl, rfl⟩

/-- C8 (amended): for every enumerated validation failure the constructor
completes without raising, the event index set is empty and the reported
count is zero; every windowing query either returns the empty table or —
only when the failure left the attributes unassigned and the queried
series matches the stored grid length — raises a missing-attribute error. -/
theorem c8_validation_amended (g : GridInfo) (ttdata rrdata : List Val)
    (c : CPConfig)
    (hfail :
      g.isDT = false ∨
      (g.isDT = true ∧ g.hasFreq = false) ∨
      (g.isDT = true ∧ g.hasFreq = true ∧
        ((ttdata.length : ℤ) ≠ (g.n : ℤ) ∨ (rrdata.length : ℤ) ≠ (g.n : ℤ))) ∨
      (g.isDT = true ∧ g.hasFreq = true ∧ (ttdata.length : ℤ) = (g.n : ℤ) ∧
        (rrdata.length : ℤ) = (g.n : ℤ) ∧ g.tres ≠ 0 ∧
        (nttOf g c ≤ 0 ∨ npreOf g c ≤ 0 ∨ npostOf g c ≤ 0))) :
    ∃ s, cp_detection g ttdata rrdata c = Except.ok s ∧
      s.cp_index = [] ∧ number s = 0 ∧
      ∀ indata, var_time s indata = Except.ok [] ∨
        ((indata.length : ℤ) = s.ntime ∧ s.attrs = none ∧
          var_time s indata = Except.error ()) := by
  by_cases hck : (g.isDT = true) ∧ (g.hasFreq = true) ∧
      (ttdata.length : ℤ) = ntimeOf g ∧ (rrdata.length : ℤ) = ntimeOf g
  · have hnt : ntimeOf g = (g.n : ℤ) := by simp [ntimeOf, hck.1]
    have hrest : g.tres ≠ 0 ∧
        (nttOf g c ≤ 0 ∨ npreOf g c ≤ 0 ∨ npostOf g c ≤ 0) := by
      rcases hfail with h1 | ⟨_, h2⟩ | ⟨_, _, h3⟩ | ⟨_, _, _, _, h5, h6⟩
      · exact absurd hck.1 (by simp [h1])
      · exact absurd hck.2.1 (by simp [h2])
      · rcases h3 with h3 | h3
        · exact absurd (hck.2.2.1.trans hnt) h3
        · exact absurd (hck.2.2.2.trans hnt) h3
      · exact ⟨h5, h6⟩
    refine ⟨⟨ntimeOf g,
      some ⟨npreOf g c, npostOf g c, c.data_avail_cp, c.data_avail_all⟩, []⟩,
      ?_, rfl, rfl, ?_⟩
    · unfold cp_detection
      rw [if_pos hck, if_neg hrest.1]
      have hcand : candOf g ttdata c = [] := by
        unfold candOf
        rw [if_neg (by omega)]
      rw [hcand, detectLoop_nil]
      rfl
    · intro indata
      left
      unfold var_time
      by_cases hl : (indata.length : ℤ) ≠ ntimeOf g
      · rw [if_pos hl]
      · rw [if_neg hl]
        rfl
  · refine ⟨⟨ntimeOf g, none, []⟩, ?_, rfl, rfl, ?_⟩
    · unfold cp_detection
      rw [if_neg hck]
    · intro indata
      by_cases hl : (indata.length : ℤ) ≠ ntimeOf g
      · left
        unfold var_time
        rw [if_pos hl]
      · right
        refine ⟨not_ne_iff.1 hl, rfl, ?_⟩
        unfold var_time
        rw [if_neg hl]

/-!  Evaluation of the worked example, used by the witnesses below.
`Rat` arithmetic does not reduce in the kernel here, so the runs are
evaluated by rewriting with small per-step lemmas. -/

theorem cand_W : candidates ttW 2 (-2) = [0, 1] := by
  norm_num [candidates, ttW, List.filter]

theorem refine_W : refine ttW 0 2 (-1) = some 1 := by
  have hsl : pySlice ttW (0 : ℤ) (0 + 2 + 1) = [some 10, some 10, some 8] := rfl
  unfold refine
  norm_num [ttW, hsl, firstIdx]

theorem slice_all_ttW :
    pySlice ttW 0 4 = [some 10, some 10, some 8, some 8] := rfl

theorem avail_ttW_lit :
    check_data_avail [some 10, some 10, some 8, some 8] (1 : ℚ) = true := by
  norm_num [check_data_avail, countFinite]

theorem avail_ttW : check_data_avail (pySlice ttW 0 4) 1 = true := by
  rw [slice_all_ttW]
  exact avail_ttW_lit

theorem avail_rrW : check_data_avail (pySlice rrW 0 4) 1 = true := by
  have hsl : pySlice rrW (0 : ℤ) 4 = [some 0, some 0, some 1, some 0] := rfl
  rw [hsl]
  norm_num [check_data_avail, countFinite]

theorem rain_W : nanSum (pySlice rrW 2 4) = some 1 := by
  have hsl : pySlice rrW (2 : ℤ) 4 = [some 1, some 0] := rfl
  rw [hsl]
  norm_num [nanSum, optAdd]

theorem ntt_W : nttOf gW cfgW = 2 := by norm_num [nttOf, pyTrunc, gW, cfgW]

theorem npre_W : npreOf gW cfgW = 1 := by norm_num [npreOf, pyTrunc, gW, cfgW]

theorem npost_W : npostOf gW cfgW = 2 := by norm_num [npostOf, pyTrunc, gW, cfgW]

theorem cand_W2 : candOf gW ttW cfgW = [0, 1] := by
  unfold candOf
  rw [if_pos (by norm_num [ntt_W, npre_W, npost_W])]
  rw [ntt_W]
  have h2 : ((2 : ℤ)).toNat = 2 := rfl
  rw [h2]
  have hd : cfgW.d_tt = -2 := rfl
  rw [hd, cand_W]

theorem loop_W :
    detectLoop ttW rrW 6 2 1 2 (-1) 1 [0, 1] (-99999) [] = .ok [1] := by
  simp only [detectLoop]
  rw [if_neg (by norm_num)]
  simp only [refine_W, index_cp_post, index_cp_all]
  rw [if_neg (by norm_num)]
  rw [if_neg (by norm_num [avail_ttW, avail_rrW])]
  rw [if_neg (by norm_num [rain_W])]
  rw [if_pos (by norm_num)]
  rfl

theorem cp_detection_W : cp_detection gW ttW rrW cfgW = Except.ok sW := by
  unfold cp_detection
  rw [if_pos (by norm_num [gW, ttW, rrW, ntimeOf])]
  rw [if_neg (by norm_num [gW])]
  rw [cand_W2, ntt_W, npre_W, npost_W]
  have h1 : ntimeOf gW = 6 := rfl
  have h2 : cfgW.d_tt_p = -1 := rfl
  have h3 : cfgW.data_avail_cp = 1 := rfl
  rw [h1, h2, h3, loop_W]
  rfl

theorem avail_rrNeg : check_data_avail (pySlice rrNeg 0 4) 1 = true := by
  have hsl : pySlice rrNeg (0 : ℤ) 4 = [some 0, some 0, some (-1), some 0] := rfl
  rw [hsl]
  norm_num [check_data_avail, countFinite]

theorem rain_Neg : nanSum (pySlice rrNeg 2 4) = some (-1) := by
  have hsl : pySlice rrNeg (2 : ℤ) 4 = [some (-1), some 0] := rfl
  rw [hsl]
  norm_num [nanSum, optAdd]

theorem loop_Neg :
    detectLoop ttW rrNeg 6 2 1 2 (-1) 1 [0, 1] (-99999) [] = .ok [1] := by
  simp only [detectLoop]
  rw [if_neg (by norm_num)]
  simp only [refine_W, index_cp_post, index_cp_all]
  rw [if_neg (by norm_num)]
  rw [if_neg (by norm_num [avail_ttW, avail_rrNeg])]
  rw [if_neg (by norm_num [rain_Neg])]
  rw [if_pos (by norm_num)]
  rfl

theorem cp_detection_Neg : cp_detection gW ttW rrNeg cfgW = Except.ok sW := by
  unfold cp_detection
  rw [if_pos (by norm_num [gW, ttW, rrNeg, ntimeOf])]
  rw [if_neg (by norm_num [gW])]
  rw [cand_W2, ntt_W, npre_W, npost_W]
  have h1 : ntimeOf gW = 6 := rfl
  have h2 : cfgW.d_tt_p = -1 := rfl
  have h3 : cfgW.data_avail_cp = 1 := rfl
  rw [h1, h2, h3, loop_Neg]
  rfl

theorem var_time_W :
    var_time sW ttW = Except.ok [[some 10, some 10, some 8, some 8]] := by
  unfold var_time
  rw [if_neg (by norm_num [sW, ttW])]
  simp only [sW, aW]
  norm_num [index_cp_all, slice_all_ttW, avail_ttW_lit]

theorem cp_index_W : sW.cp_index[(0 : ℕ)]? = some 1 := rfl

/-!  Witnesses: each applies its claim's theorem at the worked example. -/

/-- Witness for C1 at the worked example (event at index 1). -/
theorem c1_passage_refinement_w :
    ∃ t j b, t ∈ candidates ttW (nttOf gW cfgW).toNat cfgW.d_tt ∧
      ttW[t]? = some (some b) ∧
      t ≤ j ∧ (j : ℤ) ≤ (t : ℤ) + nttOf gW cfgW ∧
      (∃ x, ttW[j]? = some (some x) ∧ x ≤ b + cfgW.d_tt_p) ∧
      (∀ i, t ≤ i → i < j → ∀ x, ttW[i]? = some (some x) →
        ¬ x ≤ b + cfgW.d_tt_p) ∧
      (1 : ℤ) = (j : ℤ) - 1 :=
  c1_passage_refinement cp_detection_W (by norm_num [sW])

/-- Witness for C2 at the worked example. -/
theorem c2_min_separation_w :
    List.Pairwise (fun x y => aW.npost < y - x) sW.cp_index :=
  c2_min_separation cp_detection_W rfl (by decide)

/-- Witness for C3 at the worked example. -/
theorem c3_bounds_w :
    0 ≤ (1 : ℤ) - aW.npre ∧ (1 : ℤ) + aW.npost + 1 ≤ (gW.n : ℤ) ∧
      sW.ntime = (gW.n : ℤ) :=
  c3_bounds cp_detection_W rfl (by norm_num [sW])

/-- Witness for the amended C4 at the worked example. -/
theorem c4_rainfall_amended_w :
    nanSum (pySlice rrW ((1 : ℤ) + 1) ((1 : ℤ) + aW.npost + 1)) ≠ some 0 ∧
      ((∀ v ∈ pySlice rrW ((1 : ℤ) + 1) ((1 : ℤ) + aW.npost + 1),
          ∃ x, v = some x ∧ 0 ≤ x) →
        ∃ q, nanSum (pySlice rrW ((1 : ℤ) + 1) ((1 : ℤ) + aW.npost + 1)) =
          some q ∧ 0 < q) :=
  c4_rainfall_amended cp_detection_W rfl (by norm_num [sW])

/-- C4 counterexample: rainfall whose only wet post-window sample is
negative is accepted, and the post-period sum is `-1`, not positive. -/
theorem c4_rainfall_cex :
    cp_detection gW ttW rrNeg cfgW = Except.ok sW ∧
      (1 : ℤ) ∈ sW.cp_index ∧
      nanSum (pySlice rrNeg ((1 : ℤ) + 1) ((1 : ℤ) + aW.npost + 1)) =
        some (-1) ∧
      ¬ ((0 : ℚ) < -1) :=
  ⟨cp_detection_Neg, by norm_num [sW], by norm_num [aW, rain_Neg], by norm_num⟩

/-- Witness for the amended C5. -/
theorem c5_ranges_amended_w :
    index_cp 2 3 5 "pre" = some (5 - 2, 5 + 1) ∧
      index_cp 2 3 5 "post" = some (5 + 1, 5 + 3 + 1) ∧
      index_cp 2 3 5 "all" = some (5 - 2, 5 + 3 + 1) :=
  c5_ranges_amended 5 2 3 (by norm_num) (by norm_num)

/-- Witness for C6 at the worked example. -/
theorem c6_windowed_w :
    ∃ col, ([[some 10, some 10, some 8, some 8]] :
        List (List Val))[(0 : ℕ)]? = some col ∧
      (check_data_avail (pySlice ttW ((1 : ℤ) - aW.npre) ((1 : ℤ) + aW.npost + 1))
          aW.data_avail_cp = true →
        col.length = (aW.npre + aW.npost + 1).toNat ∧
        ∀ k : ℕ, k < (aW.npre + aW.npost + 1).toNat →
          col[k]? = ttW[((1 : ℤ) - aW.npre).toNat + k]?) ∧
      (check_data_avail (pySlice ttW ((1 : ℤ) - aW.npre) ((1 : ℤ) + aW.npost + 1))
          aW.data_avail_cp = false →
        col = List.replicate (aW.npre + aW.npost + 1).toNat none) :=
  c6_windowed cp_detection_W rfl ttW (by norm_num [sW, ttW]) var_time_W cp_index_W

/-- Witness for C7 at the worked example. -/
theorem c7_perturbation_w :
    var_pert sW ttW "median" "min" =
      (var_val sW ttW "post" "min").bind fun postv =>
        (var_val sW ttW "pre" "median").map fun prev =>
          List.zipWith optSub postv prev :=
  c7_perturbation sW ttW "median" "min" (by decide) (by decide)

/-- Witness for the amended C8 on a no-frequency grid. -/
theorem c8_validation_amended_w :
    ∃ s, cp_detection gNF ttNF ttNF cfgW = Except.ok s ∧
      s.cp_index = [] ∧ number s = 0 ∧
      ∀ indata, var_time s indata = Except.ok [] ∨
        ((indata.length : ℤ) = s.ntime ∧ s.attrs = none ∧
          var_time s indata = Except.error ()) :=
  c8_validation_amended gNF ttNF ttNF cfgW (Or.inr (Or.inl (by decide)))

/-- Witness for C9 with an unknown function name and an unknown period. -/
theorem c9_unknown_names_w :
    calc_val [[some 1]] "variance" = [] ∧
      var_val sNF ttNF "mid" "mean" = Except.ok [] :=
  ⟨c9_unknown_names.1 [[some 1]] "variance" (by decide),
   c9_unknown_names.2 sNF ttNF "mid" "mean" (by decide)⟩

/-- Witness for C10 at the worked example (candidate `t = 0`). -/
theorem c10_refine_total_w :
    ∃ icp, refine ttW 0 ((2 : ℕ) : ℤ) (-1) = some icp ∧
      ((0 : ℕ) : ℤ) ≤ icp ∧ icp ≤ ((0 : ℕ) : ℤ) + ((2 : ℕ) : ℤ) - 1 :=
  c10_refine_total ttW 2 (-2) (-1) (by norm_num) (by norm_num) 0
    (by rw [cand_W]; norm_num)

end Coldpooling
